import Mathlib

/-!
Verification of the credential-encryption subsystem of the repository
(`src/utils/encryption.ts`).

The TypeScript source composes Node's `crypto` library primitives
(PBKDF2-SHA256, AES-256-GCM, `randomBytes`) with envelope encoding
(base64 of `iv || authTag || ciphertext`) and a key-resolution policy
(`encryptionKey || process.env.PLAYWRIGHT_ENCRYPTION_KEY || DEFAULT_KEY`).

The embedding below models:
* the library primitives abstractly, as a `CryptoPrim` record whose fields
  carry the shapes the Node library guarantees (output lengths, byte ranges);
  GCM is modelled by its defining structure: ciphertext = plaintext XOR
  keystream(key, iv), tag = tagFn(key, iv, aad, ciphertext);
* UTF-8 encoding/decoding of strings (what `cipher.update(p, 'utf8')` and
  `decipher.update(..., 'utf8')` do), executably;
* Node's lenient base64 decoder (`Buffer.from(s, 'base64')` skips every
  character outside the base64 alphabet, including `=`, and never throws)
  and `Buffer.prototype.toString('base64')` (standard alphabet, padded);
* the exceptions the Node crypto layer throws on the decrypt path, as the
  inductive `DecryptError`; the two constructors `invalidEnvelopeError` and
  `integrityError` are modelled from the spec (§7 error taxonomy) and are
  there to be compared against what the code actually produces.
-/

/-! ## UTF-8 codec (model of Buffer.from(s, 'utf8') / toString('utf8')) -/

/-- UTF-8 encoding of a single Unicode scalar value, as a list of bytes. -/

def utf8EncodeChar (c : Char) : List Nat :=
  if c.toNat < 0x80 then [c.toNat]
  else if c.toNat < 0x800 then [0xC0 + c.toNat / 64, 0x80 + c.toNat % 64]
  else if c.toNat < 0x10000 then
    [0xE0 + c.toNat / 4096, 0x80 + (c.toNat / 64) % 64, 0x80 + c.toNat % 64]
  else
    [0xF0 + c.toNat / 262144, 0x80 + (c.toNat / 4096) % 64,
      0x80 + (c.toNat / 64) % 64, 0x80 + c.toNat % 64]

/-- UTF-8 encoding of a list of characters. -/

def utf8EncodeList : List Char → List Nat
  | [] => []
  | c :: cs => utf8EncodeChar c ++ utf8EncodeList cs

/-- UTF-8 encoding of a string (what `Buffer.from(s, 'utf8')` produces). -/

def utf8Encode (s : String) : List Nat := utf8EncodeList s.data

/-- Number of bytes in the UTF-8 sequence started by lead byte `b0`. -/

def utf8SeqLen (b0 : Nat) : Nat :=
  if b0 < 0x80 then 1 else if b0 < 0xE0 then 2 else if b0 < 0xF0 then 3 else 4

/-- Decode one UTF-8 sequence from its lead byte and continuation bytes. -/

def utf8DecodeOne (b0 : Nat) (args : List Nat) : Char :=
  if b0 < 0x80 then Char.ofNat b0
  else if b0 < 0xE0 then Char.ofNat ((b0 - 0xC0) * 64 + (args.getD 0 0 - 0x80))
  else if b0 < 0xF0 then
    Char.ofNat ((b0 - 0xE0) * 4096 + (args.getD 0 0 - 0x80) * 64 + (args.getD 1 0 - 0x80))
  else
    Char.ofNat ((b0 - 0xF0) * 262144 + (args.getD 0 0 - 0x80) * 4096 +
      (args.getD 1 0 - 0x80) * 64 + (args.getD 2 0 - 0x80))

/-- Worker for `utf8DecodeList`: structural recursion on a fuel bound so
that the kernel can evaluate it; `fuel ≥ bs.length` makes the fuel-out
branch unreachable. -/

def utf8DecodeGo : Nat → List Nat → List Char
  | _, [] => []
  | 0, _ :: _ => []
  | fuel + 1, b0 :: rest =>
    utf8DecodeOne b0 (rest.take (utf8SeqLen b0 - 1))
      :: utf8DecodeGo fuel (rest.drop (utf8SeqLen b0 - 1))

/-- Lossy UTF-8 decoding of a byte list into characters.  On every valid
UTF-8 encoding it recovers the encoded characters exactly, matching what
`buffer.toString('utf8')` returns there (the only behaviour the claims
depend on). -/

def utf8DecodeList (bs : List Nat) : List Char := utf8DecodeGo bs.length bs

/-- UTF-8 decoding of a byte list into a string. -/

def utf8DecodeString (bs : List Nat) : String := String.mk (utf8DecodeList bs)

/-! ## Base64 codec (model of Buffer.toString('base64') / Buffer.from(s, 'base64')) -/

/-- The standard base64 alphabet character for a 6-bit value. -/

def toB64Char (n : Nat) : Char :=
  if n < 26 then Char.ofNat (65 + n)
  else if n < 52 then Char.ofNat (97 + (n - 26))
  else if n < 62 then Char.ofNat (48 + (n - 52))
  else if n = 62 then '+'
  else '/'

/-- The 6-bit value of a base64 alphabet character, `none` for every other
character.  Node's decoder additionally accepts the URL-safe alphabet
characters `-` and `_`; every character mapped to `none` (including `=`)
is silently skipped by `Buffer.from(s, 'base64')`. -/

def fromB64Char (c : Char) : Option Nat :=
  if 65 ≤ c.toNat ∧ c.toNat ≤ 90 then some (c.toNat - 65)
  else if 97 ≤ c.toNat ∧ c.toNat ≤ 122 then some (c.toNat - 97 + 26)
  else if 48 ≤ c.toNat ∧ c.toNat ≤ 57 then some (c.toNat - 48 + 52)
  else if c = '+' ∨ c = '-' then some 62
  else if c = '/' ∨ c = '_' then some 63
  else none

/-- Base64-encode a byte list as characters, with `=` padding, exactly as
`Buffer.prototype.toString('base64')` does. -/

def b64EncodeChars : List Nat → List Char
  | a :: b :: c :: rest =>
    toB64Char (a / 4) :: toB64Char ((a % 4) * 16 + b / 16) ::
      toB64Char ((b % 16) * 4 + c / 64) :: toB64Char (c % 64) :: b64EncodeChars rest
  | [a, b] =>
    [toB64Char (a / 4), toB64Char ((a % 4) * 16 + b / 16), toB64Char ((b % 16) * 4), '=']
  | [a] => [toB64Char (a / 4), toB64Char ((a % 4) * 16), '=', '=']
  | [] => []

/-- `Buffer.prototype.toString('base64')`. -/

def base64Encode (bs : List Nat) : String := String.mk (b64EncodeChars bs)

/-- Reassemble bytes from a list of 6-bit values, groups of four at a time,
with Node's handling of a trailing group of two or three values. -/

def b64DecodeVals : List Nat → List Nat
  | v1 :: v2 :: v3 :: v4 :: rest =>
    (v1 * 4 + v2 / 16) :: ((v2 % 16) * 16 + v3 / 4) :: ((v3 % 4) * 64 + v4) ::
      b64DecodeVals rest
  | [v1, v2, v3] => [v1 * 4 + v2 / 16, (v2 % 16) * 16 + v3 / 4]
  | [v1, v2] => [v1 * 4 + v2 / 16]
  | _ => []

/-- `Buffer.from(s, 'base64')`: every character outside the (standard or
URL-safe) base64 alphabet — including `=` and whitespace — is skipped, the
surviving 6-bit values are reassembled into bytes, and a lone trailing
value is dropped.  This decoder never throws. -/

def jsBase64Decode (s : String) : List Nat :=
  b64DecodeVals (s.data.filterMap fromB64Char)

/-- A string is standard base64 when it consists of alphabet characters
followed only by `=` padding to a multiple of four; all the claims need is
that a string containing a character such as `!` is *not* valid base64. -/

def isStdBase64 (s : String) : Bool :=
  s.data.all (fun c => (fromB64Char c).isSome || c = '=') && s.length % 4 = 0

/-! ## Byte XOR (the stream-cipher core of GCM's CTR mode) -/

/-- Pointwise XOR of two byte lists (truncating at the shorter). -/

def xorBytes (xs ys : List Nat) : List Nat := List.zipWith (fun a b => a ^^^ b) xs ys

/-! ## The crypto-library primitives, abstractly

`encryption.ts` calls Node's `crypto` library: `pbkdf2Sync`, `randomBytes`,
and AES-256-GCM via `createCipheriv`/`createDecipheriv`.  The primitives are
external library code, so they enter the embedding as an abstract record.
GCM is reflected by its defining structure: it is a stream cipher
(`ciphertext = plaintext XOR keystream(key, iv)`, so decryption is the same
XOR) together with a tag function of `(key, iv, aad, ciphertext)`; the
record's proof fields carry exactly the shapes Node guarantees (output
lengths, bytes in `0..255`). -/

structure CryptoPrim where
  /-- `crypto.pbkdf2Sync(password, salt, iterations, keylen, 'sha256')`. -/
  pbkdf2Sha256 : String → String → Nat → Nat → List Nat
  /-- The CTR keystream AES-256-GCM XORs against the data: a function of the
  derived key, the IV and the requested length. -/
  gcmKeystream : List Nat → List Nat → Nat → List Nat
  /-- The GCM authentication tag: a function of the derived key, the IV,
  the associated data and the ciphertext. -/
  gcmTag : List Nat → List Nat → List Nat → List Nat → List Nat
  pbkdf2_length : ∀ pw salt iter len, (pbkdf2Sha256 pw salt iter len).length = len
  keystream_length : ∀ k iv n, (gcmKeystream k iv n).length = n
  keystream_lt : ∀ k iv n, ∀ x ∈ gcmKeystream k iv n, x < 256
  tag_length : ∀ k iv aad ct, (gcmTag k iv aad ct).length = 16
  tag_lt : ∀ k iv aad ct, ∀ x ∈ gcmTag k iv aad ct, x < 256

/-! ## The encryption module (`src/utils/encryption.ts`) -/

/-- `const DEFAULT_KEY = 'playwright-test-key-change-in-production'` (line 9). -/

def DEFAULT_KEY : String := "playwright-test-key-change-in-production"

/-- JavaScript `a || b` on strings: the empty string is falsy, so it falls
through to `b`; `none` models `undefined`. -/

def jsStringOr (a : Option String) (b : String) : String :=
  match a with
  | some s => if s = "" then b else s
  | none => b

/-- `encryptionKey || process.env.PLAYWRIGHT_ENCRYPTION_KEY || DEFAULT_KEY`
(lines 26 and 56).  `envKey` models `process.env.PLAYWRIGHT_ENCRYPTION_KEY`
(`none` = unset). -/

def resolvedKey (encryptionKey envKey : Option String) : String :=
  jsStringOr encryptionKey (jsStringOr envKey DEFAULT_KEY)

/-- `deriveKey` (lines 14–17): PBKDF2-SHA256, salt `'playwright-salt'`,
10000 iterations, 32 output bytes. -/

def deriveKey (prim : CryptoPrim) (password : String) : List Nat :=
  prim.pbkdf2Sha256 password "playwright-salt" 10000 32

/-- `Buffer.from('playwright-test', 'utf8')`, the associated data both
`encryptPassword` and `decryptPassword` bind (lines 34 and 69). -/

def AAD : List Nat := utf8Encode "playwright-test"

/-- Lines 44–46: `Buffer.concat([iv, authTag, encrypted]).toString('base64')`. -/

def encodeEnvelope (iv authTag ciphertext : List Nat) : String :=
  base64Encode (iv ++ authTag ++ ciphertext)

/-- Lines 60–65: `Buffer.from(encryptedPassword, 'base64')` split at the
fixed offsets 0:16 (`iv`), 16:32 (`authTag`), 32:end (`encrypted`). -/

def decodeEnvelope (envelope : String) : List Nat × List Nat × List Nat :=
  let combined := jsBase64Decode envelope
  (combined.take 16, (combined.drop 16).take 16, combined.drop 32)

/-- `encryptPassword` (lines 25–47).  `iv` is the one draw of
`crypto.randomBytes(16)`, passed in explicitly; `envKey` models
`process.env.PLAYWRIGHT_ENCRYPTION_KEY`. -/

def encryptPassword (prim : CryptoPrim) (iv : List Nat) (password : String)
    (encryptionKey envKey : Option String) : String :=
  let key := resolvedKey encryptionKey envKey
  let derivedKey := deriveKey prim key
  let plainBytes := utf8Encode password
  let encrypted := xorBytes plainBytes (prim.gcmKeystream derivedKey iv plainBytes.length)
  let authTag := prim.gcmTag derivedKey iv AAD encrypted
  encodeEnvelope iv authTag encrypted

/-- The failure modes of the decrypt path.  The code defines no error types
of its own and catches nothing: what escapes `decryptPassword` is whichever
exception the Node crypto layer throws.  The constructors `invalidEnvelopeError`
and `integrityError` are modelled from the spec (§7): they are the typed
errors the spec's taxonomy prescribes, present here so theorems can compare
the code's actual failures against them. -/

inductive DecryptError where
  /-- Modelled from the spec: the typed error §7 prescribes for malformed
  base64 or a decoded length < 32.  The code never constructs it. -/
  | invalidEnvelopeError : DecryptError
  /-- Modelled from the spec: the typed error §7 prescribes for a failed
  tag verification.  The code never constructs it. -/
  | integrityError : DecryptError
  /-- `crypto.createDecipheriv` throws when a GCM IV is empty. -/
  | jsInvalidIV : DecryptError
  /-- `decipher.setAuthTag` throws when the tag length is not one of the
  lengths NIST SP 800-38D allows (16, 15, 14, 13, 12, 8 or 4 bytes; no
  `authTagLength` option is passed). -/
  | jsInvalidAuthTagLength (n : Nat) : DecryptError
  /-- `decipher.final` throws `Unsupported state or unable to authenticate
  data` when tag verification fails. -/
  | jsUnableToAuthenticate : DecryptError
deriving DecidableEq, Repr

/-- Tag lengths `decipher.setAuthTag` accepts for GCM when no
`authTagLength` option was passed to `createDecipheriv`. -/

def validGcmTagLength (n : Nat) : Bool :=
  n = 16 || n = 15 || n = 14 || n = 13 || n = 12 || n = 8 || n = 4

/-- `decryptPassword` (lines 55–77).  The steps mirror the source order:
base64-decode and split (lines 60–65), `createDecipheriv` (line 68, throws
on an empty GCM IV), `setAuthTag` (line 70, throws on an invalid tag
length), `update`/`final` (lines 73–74: `final` verifies the tag — against
its first `tagLen` bytes when the supplied tag is a NIST-truncated one —
and throws if verification fails, so no unverified plaintext is ever
returned). -/

def decryptPassword (prim : CryptoPrim) (encryptedPassword : String)
    (encryptionKey envKey : Option String) : Except DecryptError String :=
  let key := resolvedKey encryptionKey envKey
  let derivedKey := deriveKey prim key
  let (iv, authTag, encrypted) := decodeEnvelope encryptedPassword
  if iv.length = 0 then
    .error .jsInvalidIV
  else if ¬ validGcmTagLength authTag.length then
    .error (.jsInvalidAuthTagLength authTag.length)
  else if (prim.gcmTag derivedKey iv AAD encrypted).take authTag.length = authTag then
    .ok (utf8DecodeString (xorBytes encrypted (prim.gcmKeystream derivedKey iv encrypted.length)))
  else
    .error .jsUnableToAuthenticate

/-! ## Core lemmas about the pipeline -/

/-! ## A concrete primitive instance for witnesses and counterexamples

The claims settled below hold for *every* `CryptoPrim` (they are properties
of the composition logic in `encryption.ts`, not of AES internals), so any
instance with the right shapes can serve to evaluate them on concrete
inputs.  `testPrim` is such an instance: simple, executable, and
content-sensitive in all of its arguments. -/

def testPrim : CryptoPrim where
  pbkdf2Sha256 := fun pw salt iter len =>
    (List.range len).map
      (fun i => ((pw.data.map Char.toNat).sum * 7 + salt.length * 3 + iter + i) % 256)
  gcmKeystream := fun k iv n =>
    (List.range n).map (fun i => (k.sum + iv.sum * 3 + i * 5 + 1) % 256)
  gcmTag := fun k iv aad ct =>
    (List.range 16).map
      (fun i => (k.sum * 2 + iv.sum * 3 + aad.sum * 5 + ct.sum * 7 + ct.length * 11 + i) % 256)
  pbkdf2_length := by intro pw salt iter len; simp
  keystream_length := by intro k iv n; simp
  keystream_lt := by
    intro k iv n x hx
    simp only [List.mem_map, List.mem_range] at hx
    obtain ⟨i, _, rfl⟩ := hx
    exact Nat.mod_lt _ (by norm_num)
  tag_length := by intro k iv aad ct; simp
  tag_lt := by
    intro k iv aad ct x hx
    simp only [List.mem_map, List.mem_range] at hx
    obtain ⟨i, _, rfl⟩ := hx
    exact Nat.mod_lt _ (by norm_num)

/-- A concrete 16-byte IV, standing in for one draw of `crypto.randomBytes(16)`. -/
def iv0 : List Nat := List.range 16

/-- A concrete envelope: `"hunter2"` encrypted under key `"test-key"`. -/
def env0 : String := encryptPassword testPrim iv0 "hunter2" (some "test-key") none

/-- `env0` with the first ciphertext byte (decoded offset 32) flipped in its
lowest bit, re-encoded: a tampered envelope. -/
def tampered0 : String :=
  base64Encode ((jsBase64Decode env0).set 32 ((jsBase64Decode env0).getD 32 0 ^^^ 1))

deriving instance DecidableEq for Except

/-! ## Lemmas -/

theorem utf8DecodeGo_fuel (fuel1 : Nat) :
    ∀ (fuel2 : Nat) (bs : List Nat), bs.length ≤ fuel1 → bs.length ≤ fuel2 →
      utf8DecodeGo fuel1 bs = utf8DecodeGo fuel2 bs := by
  induction fuel1 with
  | zero =>
    intro fuel2 bs h1 _
    cases bs with
    | nil => cases fuel2 <;> rfl
    | cons b rest => simp at h1
  | succ fuel ih =>
    intro fuel2 bs h1 h2
    cases bs with
    | nil => cases fuel2 <;> rfl
    | cons b0 rest =>
      cases fuel2 with
      | zero => simp at h2
      | succ fuel2 =>
        rw [utf8DecodeGo, utf8DecodeGo]
        have hd : (rest.drop (utf8SeqLen b0 - 1)).length ≤ rest.length := by
          rw [List.length_drop]; omega
        simp only [List.length_cons] at h1 h2
        rw [ih fuel2 _ (by omega) (by omega)]

theorem utf8DecodeList_cons (b0 : Nat) (rest : List Nat) :
    utf8DecodeList (b0 :: rest) =
      utf8DecodeOne b0 (rest.take (utf8SeqLen b0 - 1))
        :: utf8DecodeList (rest.drop (utf8SeqLen b0 - 1)) := by
  unfold utf8DecodeList
  rw [List.length_cons, utf8DecodeGo]
  have hd : (rest.drop (utf8SeqLen b0 - 1)).length ≤ rest.length := by
    rw [List.length_drop]; omega
  rw [utf8DecodeGo_fuel rest.length _ _ hd (le_refl _)]

theorem utf8DecodeList_encodeChar (c : Char) (bs : List Nat) :
    utf8DecodeList (utf8EncodeChar c ++ bs) = c :: utf8DecodeList bs := by
  have hval : c.val.isValidChar := c.valid
  have hlt : c.toNat < 0x110000 := by
    rcases hval with h | ⟨_, h⟩
    · exact Nat.lt_trans h (by norm_num)
    · exact h
  have hofnat : Char.ofNat c.toNat = c := Char.ofNat_toNat c
  unfold utf8EncodeChar
  by_cases h1 : c.toNat < 0x80
  · simp only [h1, if_true, List.cons_append, List.nil_append]
    rw [utf8DecodeList_cons]
    have hlen : utf8SeqLen c.toNat = 1 := by unfold utf8SeqLen; simp [h1]
    rw [hlen]
    simp only [Nat.sub_self, List.take_zero, List.drop_zero]
    unfold utf8DecodeOne
    simp only [h1, if_true]
    rw [hofnat]
  · by_cases h2 : c.toNat < 0x800
    · simp only [h1, h2, if_false, if_true, List.cons_append, List.nil_append]
      rw [utf8DecodeList_cons]
      have hlen : utf8SeqLen (0xC0 + c.toNat / 64) = 2 := by
        unfold utf8SeqLen
        have ha : ¬ (0xC0 + c.toNat / 64 < 0x80) := by omega
        have hb : 0xC0 + c.toNat / 64 < 0xE0 := by omega
        simp [ha, hb]
      rw [hlen]
      have ht : ((0x80 + c.toNat % 64) :: bs).take (2 - 1) = [0x80 + c.toNat % 64] := rfl
      have hd : ((0x80 + c.toNat % 64) :: bs).drop (2 - 1) = bs := rfl
      rw [ht, hd]
      unfold utf8DecodeOne
      have ha : ¬ (0xC0 + c.toNat / 64 < 0x80) := by omega
      have hb : 0xC0 + c.toNat / 64 < 0xE0 := by omega
      simp only [ha, hb, if_false, if_true, List.getD_cons_zero]
      have harg : (0xC0 + c.toNat / 64 - 0xC0) * 64 + (0x80 + c.toNat % 64 - 0x80) = c.toNat := by
        omega
      rw [harg, hofnat]
    · by_cases h3 : c.toNat < 0x10000
      · simp only [h1, h2, h3, if_false, if_true, List.cons_append, List.nil_append]
        rw [utf8DecodeList_cons]
        have ha : ¬ (0xE0 + c.toNat / 4096 < 0x80) := by omega
        have hb : ¬ (0xE0 + c.toNat / 4096 < 0xE0) := by omega
        have hc : 0xE0 + c.toNat / 4096 < 0xF0 := by omega
        have hlen : utf8SeqLen (0xE0 + c.toNat / 4096) = 3 := by
          unfold utf8SeqLen; simp [ha, hb, hc]
        rw [hlen]
        have ht : ((0x80 + c.toNat / 64 % 64) :: (0x80 + c.toNat % 64) :: bs).take (3 - 1) =
            [0x80 + c.toNat / 64 % 64, 0x80 + c.toNat % 64] := rfl
        have hd : ((0x80 + c.toNat / 64 % 64) :: (0x80 + c.toNat % 64) :: bs).drop (3 - 1) =
            bs := rfl
        rw [ht, hd]
        unfold utf8DecodeOne
        simp only [ha, hb, hc, if_false, if_true, List.getD_cons_zero, List.getD_cons_succ]
        have harg : (0xE0 + c.toNat / 4096 - 0xE0) * 4096 +
            (0x80 + c.toNat / 64 % 64 - 0x80) * 64 + (0x80 + c.toNat % 64 - 0x80) = c.toNat := by
          omega
        rw [harg, hofnat]
      · simp only [h1, h2, h3, if_false, List.cons_append, List.nil_append]
        rw [utf8DecodeList_cons]
        have ha : ¬ (0xF0 + c.toNat / 262144 < 0x80) := by omega
        have hb : ¬ (0xF0 + c.toNat / 262144 < 0xE0) := by omega
        have hc : ¬ (0xF0 + c.toNat / 262144 < 0xF0) := by omega
        have hlen : utf8SeqLen (0xF0 + c.toNat / 262144) = 4 := by
          unfold utf8SeqLen; simp [ha, hb, hc]
        rw [hlen]
        have ht : ((0x80 + c.toNat / 4096 % 64) :: (0x80 + c.toNat / 64 % 64) ::
            (0x80 + c.toNat % 64) :: bs).take (4 - 1) =
            [0x80 + c.toNat / 4096 % 64, 0x80 + c.toNat / 64 % 64, 0x80 + c.toNat % 64] := rfl
        have hd : ((0x80 + c.toNat / 4096 % 64) :: (0x80 + c.toNat / 64 % 64) ::
            (0x80 + c.toNat % 64) :: bs).drop (4 - 1) = bs := rfl
        rw [ht, hd]
        unfold utf8DecodeOne
        simp only [ha, hb, hc, if_false, List.getD_cons_zero, List.getD_cons_succ]
        have harg : (0xF0 + c.toNat / 262144 - 0xF0) * 262144 +
            (0x80 + c.toNat / 4096 % 64 - 0x80) * 4096 +
            (0x80 + c.toNat / 64 % 64 - 0x80) * 64 + (0x80 + c.toNat % 64 - 0x80) = c.toNat := by
          omega
        rw [harg, hofnat]

theorem utf8DecodeList_encodeList (cs : List Char) :
    utf8DecodeList (utf8EncodeList cs) = cs := by
  induction cs with
  | nil => rw [utf8EncodeList]; rfl
  | cons c cs ih =>
    rw [utf8EncodeList, utf8DecodeList_encodeChar, ih]

theorem utf8DecodeString_encode (s : String) : utf8DecodeString (utf8Encode s) = s := by
  unfold utf8DecodeString utf8Encode
  rw [utf8DecodeList_encodeList]

theorem utf8EncodeChar_lt (c : Char) : ∀ x ∈ utf8EncodeChar c, x < 256 := by
  have hval : c.val.isValidChar := c.valid
  have hlt : c.toNat < 0x110000 := by
    rcases hval with h | ⟨_, h⟩
    · exact Nat.lt_trans h (by norm_num)
    · exact h
  intro x hx
  unfold utf8EncodeChar at hx
  split_ifs at hx with h1 h2 h3 <;>
    simp only [List.mem_cons, List.mem_singleton, List.not_mem_nil, or_false] at hx <;>
    omega

theorem utf8EncodeList_lt (cs : List Char) : ∀ x ∈ utf8EncodeList cs, x < 256 := by
  induction cs with
  | nil => intro x hx; cases hx
  | cons c cs ih =>
    intro x hx
    rw [utf8EncodeList, List.mem_append] at hx
    rcases hx with h | h
    · exact utf8EncodeChar_lt c x h
    · exact ih x h

theorem utf8Encode_lt (s : String) : ∀ x ∈ utf8Encode s, x < 256 :=
  utf8EncodeList_lt s.data

theorem utf8EncodeChar_ne_nil (c : Char) : utf8EncodeChar c ≠ [] := by
  unfold utf8EncodeChar
  by_cases h1 : c.toNat < 0x80
  · simp [h1]
  · by_cases h2 : c.toNat < 0x800
    · simp [h1, h2]
    · by_cases h3 : c.toNat < 0x10000
      · simp [h1, h2, h3]
      · simp [h1, h2, h3]

theorem utf8Encode_eq_nil_iff (s : String) : utf8Encode s = [] ↔ s = "" := by
  constructor
  · intro h
    cases s with
    | mk data =>
      cases data with
      | nil => rfl
      | cons c cs =>
        exfalso
        rw [utf8Encode] at h
        simp only [utf8EncodeList] at h
        rcases List.append_eq_nil.mp h with ⟨h1, _⟩
        exact utf8EncodeChar_ne_nil c h1
  · intro h
    rw [h]
    rfl

theorem fromB64Char_toB64Char (n : Nat) (h : n < 64) :
    fromB64Char (toB64Char n) = some n := by
  revert h
  revert n
  decide

theorem b64_eq_none : fromB64Char '=' = none := by decide

theorem b64DecodeVals_encodeChars (bs : List Nat) (h : ∀ x ∈ bs, x < 256) :
    b64DecodeVals ((b64EncodeChars bs).filterMap fromB64Char) = bs := by
  induction bs using b64EncodeChars.induct with
  | case1 a b c rest ih =>
    have ha : a < 256 := h a (by simp)
    have hb : b < 256 := h b (by simp)
    have hc : c < 256 := h c (by simp)
    have hv1 : fromB64Char (toB64Char (a / 4)) = some (a / 4) :=
      fromB64Char_toB64Char _ (by omega)
    have hv2 : fromB64Char (toB64Char ((a % 4) * 16 + b / 16)) =
        some ((a % 4) * 16 + b / 16) := fromB64Char_toB64Char _ (by omega)
    have hv3 : fromB64Char (toB64Char ((b % 16) * 4 + c / 64)) =
        some ((b % 16) * 4 + c / 64) := fromB64Char_toB64Char _ (by omega)
    have hv4 : fromB64Char (toB64Char (c % 64)) = some (c % 64) :=
      fromB64Char_toB64Char _ (by omega)
    rw [b64EncodeChars]
    simp only [List.filterMap_cons, hv1, hv2, hv3, hv4]
    rw [b64DecodeVals]
    have e1 : a / 4 * 4 + ((a % 4) * 16 + b / 16) / 16 = a := by omega
    have e2 : ((a % 4) * 16 + b / 16) % 16 * 16 + ((b % 16) * 4 + c / 64) / 4 = b := by omega
    have e3 : ((b % 16) * 4 + c / 64) % 4 * 64 + c % 64 = c := by omega
    rw [e1, e2, e3, ih (fun x hx => h x (by simp [hx]))]
  | case2 a b =>
    have ha : a < 256 := h a (by simp)
    have hb : b < 256 := h b (by simp)
    have hv1 : fromB64Char (toB64Char (a / 4)) = some (a / 4) :=
      fromB64Char_toB64Char _ (by omega)
    have hv2 : fromB64Char (toB64Char ((a % 4) * 16 + b / 16)) =
        some ((a % 4) * 16 + b / 16) := fromB64Char_toB64Char _ (by omega)
    have hv3 : fromB64Char (toB64Char ((b % 16) * 4)) = some ((b % 16) * 4) :=
      fromB64Char_toB64Char _ (by omega)
    rw [b64EncodeChars]
    simp only [List.filterMap_cons, hv1, hv2, hv3, b64_eq_none, List.filterMap_nil]
    have hde : b64DecodeVals [a / 4, (a % 4) * 16 + b / 16, (b % 16) * 4] =
        [a / 4 * 4 + ((a % 4) * 16 + b / 16) / 16,
          ((a % 4) * 16 + b / 16) % 16 * 16 + (b % 16) * 4 / 4] := rfl
    rw [hde]
    have e1 : a / 4 * 4 + ((a % 4) * 16 + b / 16) / 16 = a := by omega
    have e2 : ((a % 4) * 16 + b / 16) % 16 * 16 + (b % 16) * 4 / 4 = b := by omega
    rw [e1, e2]
  | case3 a =>
    have ha : a < 256 := h a (by simp)
    have hv1 : fromB64Char (toB64Char (a / 4)) = some (a / 4) :=
      fromB64Char_toB64Char _ (by omega)
    have hv2 : fromB64Char (toB64Char ((a % 4) * 16)) = some ((a % 4) * 16) :=
      fromB64Char_toB64Char _ (by omega)
    rw [b64EncodeChars]
    simp only [List.filterMap_cons, hv1, hv2, b64_eq_none, List.filterMap_nil]
    have hde : b64DecodeVals [a / 4, (a % 4) * 16] = [a / 4 * 4 + (a % 4) * 16 / 16] := rfl
    rw [hde]
    have e1 : a / 4 * 4 + (a % 4) * 16 / 16 = a := by omega
    rw [e1]
  | case4 => rfl

theorem jsBase64Decode_encode (bs : List Nat) (h : ∀ x ∈ bs, x < 256) :
    jsBase64Decode (base64Encode bs) = bs := by
  unfold jsBase64Decode base64Encode
  exact b64DecodeVals_encodeChars bs h

theorem xorBytes_length (xs ys : List Nat) :
    (xorBytes xs ys).length = min xs.length ys.length := by
  unfold xorBytes
  exact List.length_zipWith _ _ _

theorem xorBytes_xorBytes (xs ys : List Nat) (h : xs.length = ys.length) :
    xorBytes (xorBytes xs ys) ys = xs := by
  induction xs generalizing ys with
  | nil => cases ys with
    | nil => rfl
    | cons y ys => simp at h
  | cons x xs ih =>
    cases ys with
    | nil => simp at h
    | cons y ys =>
      simp only [List.length_cons, Nat.add_right_cancel_iff] at h
      unfold xorBytes at ih ⊢
      simp only [List.zipWith_cons_cons]
      rw [Nat.xor_cancel_right, ih ys h]

theorem xorBytes_lt (xs ys : List Nat) (hx : ∀ x ∈ xs, x < 256) (hy : ∀ y ∈ ys, y < 256) :
    ∀ z ∈ xorBytes xs ys, z < 256 := by
  induction xs generalizing ys with
  | nil => intro z hz; cases hz
  | cons x xs ih =>
    cases ys with
    | nil => intro z hz; cases hz
    | cons y ys =>
      intro z hz
      unfold xorBytes at hz
      simp only [List.zipWith_cons_cons, List.mem_cons] at hz
      rcases hz with hz | hz
      · subst hz
        have hx0 : x < 2 ^ 8 := hx x (by simp)
        have hy0 : y < 2 ^ 8 := hy y (by simp)
        exact Nat.bitwise_lt hx0 hy0
      · exact ih ys (fun a ha => hx a (by simp [ha])) (fun a ha => hy a (by simp [ha])) z hz

theorem decodeEnvelope_encodeEnvelope (iv authTag ct : List Nat)
    (hiv : iv.length = 16) (htag : authTag.length = 16)
    (hivb : ∀ x ∈ iv, x < 256) (htagb : ∀ x ∈ authTag, x < 256)
    (hctb : ∀ x ∈ ct, x < 256) :
    decodeEnvelope (encodeEnvelope iv authTag ct) = (iv, authTag, ct) := by
  unfold decodeEnvelope encodeEnvelope
  have hball : ∀ x ∈ iv ++ authTag ++ ct, x < 256 := by
    intro x hx
    rcases List.mem_append.mp hx with hx' | hx'
    · rcases List.mem_append.mp hx' with h | h
      · exact hivb x h
      · exact htagb x h
    · exact hctb x hx'
  rw [jsBase64Decode_encode _ hball]
  have h1 : (iv ++ authTag ++ ct).take 16 = iv := by
    rw [List.append_assoc]
    exact List.take_left' hiv
  have h2 : ((iv ++ authTag ++ ct).drop 16).take 16 = authTag := by
    rw [List.append_assoc, List.drop_left' hiv]
    exact List.take_left' htag
  have h3 : (iv ++ authTag ++ ct).drop 32 = ct := by
    have hlen : (iv ++ authTag).length = 32 := by
      rw [List.length_append, hiv, htag]
    exact List.drop_left' hlen
  simp only [h1, h2, h3]

theorem decrypt_encrypt_aux (prim : CryptoPrim) (iv : List Nat) (p : String)
    (ek env : Option String) (hiv : iv.length = 16) (hivb : ∀ x ∈ iv, x < 256) :
    decryptPassword prim (encryptPassword prim iv p ek env) ek env =
      Except.ok p := by
  unfold encryptPassword decryptPassword
  set key := resolvedKey ek env with hkey
  set dk := deriveKey prim key with hdk
  set pt := utf8Encode p with hpt
  set enc := xorBytes pt (prim.gcmKeystream dk iv pt.length) with henc
  set tg := prim.gcmTag dk iv AAD enc with htg
  have hencb : ∀ x ∈ enc, x < 256 :=
    xorBytes_lt _ _ (utf8Encode_lt p) (prim.keystream_lt dk iv pt.length)
  have htagb : ∀ x ∈ tg, x < 256 := prim.tag_lt dk iv AAD enc
  have htaglen : tg.length = 16 := prim.tag_length dk iv AAD enc
  rw [decodeEnvelope_encodeEnvelope iv tg enc hiv htaglen hivb htagb hencb]
  have hivne : ¬ (iv.length = 0) := by omega
  have hvalid : validGcmTagLength tg.length = true := by
    rw [htaglen]; rfl
  have htake : (prim.gcmTag dk iv AAD enc).take tg.length = tg := by
    rw [htaglen, ← htg, ← htaglen, List.take_length]
  have henclen : enc.length = pt.length := by
    rw [henc, xorBytes_length, prim.keystream_length, Nat.min_self]
  simp only [hivne, if_false, hvalid, not_true, htake, if_true]
  rw [henclen, henc]
  rw [xorBytes_xorBytes _ _ (by rw [prim.keystream_length])]
  rw [hpt, utf8DecodeString_encode]

/-! ## Claims -/

/-- C1: for every plaintext string `p` (including the empty string and
strings containing multi-byte characters) and every key, decrypting the
result of encrypting `p` with that key using the same key returns exactly
`p`, for any 16-byte IV draw and any crypto primitive. -/
theorem c1_decrypt_encrypt_round_trip (prim : CryptoPrim) (iv : List Nat)
    (p : String) (ek env : Option String)
    (hiv : iv.length = 16) (hivb : ∀ x ∈ iv, x < 256) :
    decryptPassword prim (encryptPassword prim iv p ek env) ek env = Except.ok p :=
  decrypt_encrypt_aux prim iv p ek env hiv hivb

/-- Witness for C1 at a concrete multi-byte plaintext and key. -/
theorem c1_witness :
    iv0.length = 16 ∧ (∀ x ∈ iv0, x < 256) ∧
      decryptPassword testPrim (encryptPassword testPrim iv0 "héllo→✓" (some "test-key") none)
        (some "test-key") none = Except.ok "héllo→✓" :=
  ⟨by decide, by decide,
    c1_decrypt_encrypt_round_trip testPrim iv0 "héllo→✓" (some "test-key") none
      (by decide) (by decide)⟩

/-- C6: key derivation is a deterministic function of the passphrase alone:
`deriveKey` invokes the PBKDF2-SHA256 primitive with the fixed hard-coded
salt `'playwright-salt'`, the fixed iteration count 10000 and output length
32, always produces exactly 32 bytes, and is total on every string
(including the empty passphrase). -/
theorem c6_deriveKey_fixed_params (prim : CryptoPrim) (pw : String) :
    deriveKey prim pw = prim.pbkdf2Sha256 pw "playwright-salt" 10000 32 ∧
      (deriveKey prim pw).length = 32 ∧ (deriveKey prim "").length = 32 :=
  ⟨rfl, prim.pbkdf2_length pw "playwright-salt" 10000 32,
    prim.pbkdf2_length "" "playwright-salt" 10000 32⟩

/-- C10: an explicit empty-string key parameter is falsy in JavaScript, so
`encryptionKey || ...` treats it as absent: both operations behave exactly
as when no explicit key is supplied, falling through to the environment
variable or the default. -/
theorem c10_empty_explicit_key_falls_through (prim : CryptoPrim) (iv : List Nat)
    (p s : String) (env : Option String) :
    resolvedKey (some "") env = resolvedKey none env ∧
      encryptPassword prim iv p (some "") env = encryptPassword prim iv p none env ∧
      decryptPassword prim s (some "") env = decryptPassword prim s none env :=
  ⟨rfl, rfl, rfl⟩

/-- C4: key resolution in both `encryptPassword` and `decryptPassword`
returns, in priority order: the explicit key parameter if provided (and
non-empty, per C10); otherwise the `PLAYWRIGHT_ENCRYPTION_KEY` environment
value if set (and non-empty); otherwise the built-in development default.
With an explicit key supplied the environment key is ignored even if set;
with neither supplied the default is used. -/
theorem c4_key_precedence (prim : CryptoPrim) (iv : List Nat) (p s k e : String)
    (hk : k ≠ "") (he : e ≠ "") :
    resolvedKey (some k) (some e) = k ∧ resolvedKey (some k) none = k ∧
      resolvedKey none (some e) = e ∧ resolvedKey none none = DEFAULT_KEY ∧
      encryptPassword prim iv p (some k) (some e) = encryptPassword prim iv p (some k) none ∧
      decryptPassword prim s (some k) (some e) = decryptPassword prim s (some k) none ∧
      encryptPassword prim iv p none none = encryptPassword prim iv p (some DEFAULT_KEY) none ∧
      decryptPassword prim s none none = decryptPassword prim s (some DEFAULT_KEY) none := by
  have hres : resolvedKey (some k) (some e) = k := by
    unfold resolvedKey jsStringOr
    simp [hk]
  have hres2 : resolvedKey (some k) none = k := by
    unfold resolvedKey jsStringOr
    simp [hk]
  have hres3 : resolvedKey none (some e) = e := by
    unfold resolvedKey jsStringOr
    simp [he]
  have hres4 : resolvedKey none none = DEFAULT_KEY := rfl
  have hres5 : resolvedKey (some DEFAULT_KEY) none = DEFAULT_KEY := by
    unfold resolvedKey jsStringOr
    simp [DEFAULT_KEY]
  refine ⟨hres, hres2, hres3, hres4, ?_, ?_, ?_, ?_⟩
  · unfold encryptPassword
    rw [hres, hres2]
  · unfold decryptPassword
    rw [hres, hres2]
  · unfold encryptPassword
    rw [hres4, hres5]
  · unfold decryptPassword
    rw [hres4, hres5]

/-- Witness for C4 at concrete non-empty keys. -/
theorem c4_witness :
    ("test-key" : String) ≠ "" ∧ ("env-key" : String) ≠ "" ∧
      resolvedKey (some "test-key") (some "env-key") = "test-key" ∧
      encryptPassword testPrim iv0 "hunter2" (some "test-key") (some "env-key") =
        encryptPassword testPrim iv0 "hunter2" (some "test-key") none :=
  ⟨by decide, by decide,
    (c4_key_precedence testPrim iv0 "hunter2" "s" "test-key" "env-key"
      (by decide) (by decide)).1,
    (c4_key_precedence testPrim iv0 "hunter2" "s" "test-key" "env-key"
      (by decide) (by decide)).2.2.2.2.1⟩

/-- C5: the envelope wire format is exactly base64 of
`nonce(16) || tag(16) || ciphertext` in that fixed order, and decoding
splits the decoded bytes at the fixed offsets 0:16, 16:32 and 32:end, so
decode inverts encode on every well-formed `(nonce, tag, ciphertext)`
triple. -/
theorem c5_envelope_codec_round_trip (nonce tag ct : List Nat)
    (hn : nonce.length = 16) (ht : tag.length = 16)
    (hnb : ∀ x ∈ nonce, x < 256) (htb : ∀ x ∈ tag, x < 256) (hcb : ∀ x ∈ ct, x < 256) :
    encodeEnvelope nonce tag ct = base64Encode (nonce ++ tag ++ ct) ∧
      decodeEnvelope (encodeEnvelope nonce tag ct) = (nonce, tag, ct) :=
  ⟨rfl, decodeEnvelope_encodeEnvelope nonce tag ct hn ht hnb htb hcb⟩

/-- Witness for C5 at a concrete triple. -/
theorem c5_witness :
    (List.range 16).length = 16 ∧ (List.map (· + 100) (List.range 16)).length = 16 ∧
      decodeEnvelope (encodeEnvelope (List.range 16) (List.map (· + 100) (List.range 16))
          [250, 251, 252]) =
        (List.range 16, List.map (· + 100) (List.range 16), [250, 251, 252]) :=
  ⟨by decide, by decide,
    (c5_envelope_codec_round_trip (List.range 16) (List.map (· + 100) (List.range 16))
      [250, 251, 252] (by decide) (by decide) (by decide) (by decide) (by decide)).2⟩

/-- C2, counterexample: the code has no typed `IntegrityError`.  On a valid
envelope whose first ciphertext byte has been flipped, `decryptPassword`
fails, but with the crypto layer's generic `Unsupported state or unable to
authenticate data` exception (`jsUnableToAuthenticate`), not with the
spec's typed `IntegrityError`. -/
theorem c2_counterexample :
    decryptPassword testPrim tampered0 (some "test-key") none =
        Except.error DecryptError.jsUnableToAuthenticate ∧
      decryptPassword testPrim tampered0 (some "test-key") none ≠
        Except.error DecryptError.integrityError :=
  ⟨by decide, by decide⟩

/-- C2, amended: for every envelope whose decoded length is at least 32,
whenever the recomputed GCM tag differs from the stored tag,
`decryptPassword` fails with the generic crypto-layer exception
`jsUnableToAuthenticate` (not a typed `IntegrityError`, which the code
never constructs); and whenever it returns a plaintext, the tag
verification the code performs did succeed, so unverified or altered
plaintext is never returned. -/
theorem c2_tag_mismatch_generic_error (prim : CryptoPrim) (s : String)
    (ek env : Option String) :
    (32 ≤ (jsBase64Decode s).length →
      prim.gcmTag (deriveKey prim (resolvedKey ek env)) ((jsBase64Decode s).take 16) AAD
          ((jsBase64Decode s).drop 32) ≠ ((jsBase64Decode s).drop 16).take 16 →
      decryptPassword prim s ek env = Except.error DecryptError.jsUnableToAuthenticate) ∧
    (∀ p, decryptPassword prim s ek env = Except.ok p →
      (prim.gcmTag (deriveKey prim (resolvedKey ek env)) ((jsBase64Decode s).take 16) AAD
          ((jsBase64Decode s).drop 32)).take (((jsBase64Decode s).drop 16).take 16).length =
        ((jsBase64Decode s).drop 16).take 16) := by
  constructor
  · intro h32 hmis
    unfold decryptPassword decodeEnvelope
    dsimp only
    set combined := jsBase64Decode s with hc
    have hivlen : (combined.take 16).length = 16 := by rw [List.length_take]; omega
    have hne : ¬ ((combined.take 16).length = 0) := by omega
    rw [if_neg hne]
    have htaglen : (List.take 16 (List.drop 16 combined)).length = 16 := by
      rw [List.length_take, List.length_drop]; omega
    have hvv : ¬ ¬ validGcmTagLength (List.take 16 (List.drop 16 combined)).length = true := by
      rw [htaglen]; decide
    rw [if_neg hvv]
    have hcomplen : (prim.gcmTag (deriveKey prim (resolvedKey ek env)) (List.take 16 combined)
        AAD (List.drop 32 combined)).length = 16 := prim.tag_length _ _ _ _
    have htk : List.take (List.take 16 (List.drop 16 combined)).length
        (prim.gcmTag (deriveKey prim (resolvedKey ek env)) (List.take 16 combined)
          AAD (List.drop 32 combined)) =
        prim.gcmTag (deriveKey prim (resolvedKey ek env)) (List.take 16 combined)
          AAD (List.drop 32 combined) := by
      rw [List.take_eq_self_iff]
      omega
    rw [htk, if_neg hmis]
  · intro p hp
    unfold decryptPassword decodeEnvelope at hp
    dsimp only at hp
    by_cases h1 : (List.take 16 (jsBase64Decode s)).length = 0
    · rw [if_pos h1] at hp
      exact absurd hp (by simp)
    · rw [if_neg h1] at hp
      by_cases h2 : ¬ validGcmTagLength (List.take 16 (List.drop 16 (jsBase64Decode s))).length = true
      · rw [if_pos h2] at hp
        exact absurd hp (by simp)
      · rw [if_neg h2] at hp
        by_cases h3 : List.take (List.take 16 (List.drop 16 (jsBase64Decode s))).length
            (prim.gcmTag (deriveKey prim (resolvedKey ek env)) (List.take 16 (jsBase64Decode s))
              AAD (List.drop 32 (jsBase64Decode s))) =
            List.take 16 (List.drop 16 (jsBase64Decode s))
        · exact h3
        · rw [if_neg h3] at hp
          exact absurd hp (by simp)

/-- Witness for the amended C2 at the concrete tampered envelope. -/
theorem c2_witness :
    32 ≤ (jsBase64Decode tampered0).length ∧
      decryptPassword testPrim tampered0 (some "test-key") none =
        Except.error DecryptError.jsUnableToAuthenticate :=
  ⟨by decide,
    (c2_tag_mismatch_generic_error testPrim tampered0 (some "test-key") none).1
      (by decide) (by decide)⟩

/-- C3, counterexample: a string that is not valid base64 (it contains the
character `!`) does **not** fail with `InvalidEnvelopeError` — Node's
base64 decoder silently skips the invalid character, and here decryption
even succeeds, returning the plaintext. -/
theorem c3_counterexample :
    isStdBase64 (env0 ++ "!") = false ∧
      decryptPassword testPrim (env0 ++ "!") (some "test-key") none = Except.ok "hunter2" :=
  ⟨by decide, by decide⟩

/-- C3, amended: the code defines no `InvalidEnvelopeError` and performs no
envelope validation: `decryptPassword` never fails with the spec's typed
`InvalidEnvelopeError` on any input (non-base64 characters are silently
skipped during decoding, and may even leave a decryptable envelope); an
input whose decoded length is at most 16 bytes instead fails with a
generic crypto-layer exception (invalid IV when the decode is empty,
invalid authentication tag length 0 otherwise). -/
theorem c3_no_invalid_envelope_error (prim : CryptoPrim) (s : String)
    (ek env : Option String) :
    decryptPassword prim s ek env ≠ Except.error DecryptError.invalidEnvelopeError ∧
    ((jsBase64Decode s).length ≤ 16 →
      decryptPassword prim s ek env = Except.error DecryptError.jsInvalidIV ∨
      decryptPassword prim s ek env = Except.error (DecryptError.jsInvalidAuthTagLength 0)) := by
  constructor
  · intro hcontra
    unfold decryptPassword decodeEnvelope at hcontra
    dsimp only at hcontra
    split at hcontra <;> try simp at hcontra
    split at hcontra <;> try simp at hcontra
    split at hcontra <;> simp at hcontra
  · intro h16
    unfold decryptPassword decodeEnvelope
    dsimp only
    by_cases h0 : (jsBase64Decode s).length = 0
    · left
      have hiv0 : (List.take 16 (jsBase64Decode s)).length = 0 := by
        rw [List.length_take]; omega
      rw [if_pos hiv0]
    · right
      have hivne : ¬ (List.take 16 (jsBase64Decode s)).length = 0 := by
        rw [List.length_take]; omega
      rw [if_neg hivne]
      have htag0 : (List.take 16 (List.drop 16 (jsBase64Decode s))).length = 0 := by
        rw [List.length_take, List.length_drop]; omega
      rw [htag0]
      have hbad : ¬ validGcmTagLength 0 = true := by decide
      rw [if_pos hbad]

/-- Witness for the amended C3 at the concrete short input `"AAAA"`
(three decoded bytes). -/
theorem c3_witness :
    (jsBase64Decode "AAAA").length ≤ 16 ∧
      (decryptPassword testPrim "AAAA" (some "k") none =
          Except.error DecryptError.jsInvalidIV ∨
        decryptPassword testPrim "AAAA" (some "k") none =
          Except.error (DecryptError.jsInvalidAuthTagLength 0)) :=
  ⟨by decide, (c3_no_invalid_envelope_error testPrim "AAAA" (some "k") none).2 (by decide)⟩

/-- Decoding the envelope `encryptPassword` produces recovers the raw
concatenation `iv || tag || ciphertext`. -/
theorem jsBase64Decode_encryptPassword (prim : CryptoPrim) (iv : List Nat) (p : String)
    (ek env : Option String) (hivb : ∀ x ∈ iv, x < 256) :
    jsBase64Decode (encryptPassword prim iv p ek env) =
      iv ++ prim.gcmTag (deriveKey prim (resolvedKey ek env)) iv AAD
          (xorBytes (utf8Encode p)
            (prim.gcmKeystream (deriveKey prim (resolvedKey ek env)) iv (utf8Encode p).length)) ++
        xorBytes (utf8Encode p)
          (prim.gcmKeystream (deriveKey prim (resolvedKey ek env)) iv (utf8Encode p).length) := by
  unfold encryptPassword encodeEnvelope
  dsimp only
  apply jsBase64Decode_encode
  intro x hx
  rcases List.mem_append.mp hx with hx' | hx'
  · rcases List.mem_append.mp hx' with h | h
    · exact hivb x h
    · exact prim.tag_lt _ _ _ _ x h
  · exact xorBytes_lt _ _ (utf8Encode_lt p) (prim.keystream_lt _ _ _) x hx'

/-- C7: the envelope produced by `encryptPassword` decodes to exactly
`32 + L` bytes where `L` is the UTF-8 byte length of the plaintext: the
nonce and tag portions are each exactly 16 bytes, the ciphertext portion
has exactly the plaintext's byte length, the total decoded length is
always at least 32, and the ciphertext portion is empty exactly when the
plaintext is the empty string. -/
theorem c7_envelope_lengths (prim : CryptoPrim) (iv : List Nat) (p : String)
    (ek env : Option String) (hiv : iv.length = 16) (hivb : ∀ x ∈ iv, x < 256) :
    (jsBase64Decode (encryptPassword prim iv p ek env)).length = 32 + (utf8Encode p).length ∧
      ((jsBase64Decode (encryptPassword prim iv p ek env)).take 16).length = 16 ∧
      (((jsBase64Decode (encryptPassword prim iv p ek env)).drop 16).take 16).length = 16 ∧
      ((jsBase64Decode (encryptPassword prim iv p ek env)).drop 32).length =
        (utf8Encode p).length ∧
      32 ≤ (jsBase64Decode (encryptPassword prim iv p ek env)).length ∧
      ((jsBase64Decode (encryptPassword prim iv p ek env)).drop 32 = [] ↔ p = "") := by
  rw [jsBase64Decode_encryptPassword prim iv p ek env hivb]
  set dk := deriveKey prim (resolvedKey ek env) with hdk
  set enc := xorBytes (utf8Encode p) (prim.gcmKeystream dk iv (utf8Encode p).length) with henc
  set tg := prim.gcmTag dk iv AAD enc with htg
  have htaglen : tg.length = 16 := prim.tag_length _ _ _ _
  have henclen : enc.length = (utf8Encode p).length := by
    rw [henc, xorBytes_length, prim.keystream_length, Nat.min_self]
  have htot : (iv ++ tg ++ enc).length = 32 + (utf8Encode p).length := by
    simp only [List.length_append, hiv, htaglen, henclen]
  have hdrop : (iv ++ tg ++ enc).drop 32 = enc := by
    have hlen : (iv ++ tg).length = 32 := by
      rw [List.length_append, hiv, htaglen]
    exact List.drop_left' hlen
  refine ⟨htot, ?_, ?_, ?_, ?_, ?_⟩
  · rw [List.length_take, htot]; omega
  · rw [List.length_take, List.length_drop, htot]; omega
  · rw [hdrop, henclen]
  · rw [htot]; omega
  · rw [hdrop]
    constructor
    · intro h
      apply (utf8Encode_eq_nil_iff p).mp
      apply List.length_eq_zero.mp
      rw [← henclen, h]
      rfl
    · intro h
      rw [henc, (utf8Encode_eq_nil_iff p).mpr h]
      rfl

/-- Witness for C7 at a concrete plaintext and IV. -/
theorem c7_witness :
    iv0.length = 16 ∧ (∀ x ∈ iv0, x < 256) ∧
      (jsBase64Decode (encryptPassword testPrim iv0 "hunter2" (some "test-key") none)).length =
        32 + (utf8Encode "hunter2").length :=
  ⟨by decide, by decide,
    (c7_envelope_lengths testPrim iv0 "hunter2" (some "test-key") none
      (by decide) (by decide)).1⟩

/-- C8: two encryptions of the same plaintext under the same key with
distinct random nonces yield two different envelope strings, and both
envelopes decrypt under that key to the original plaintext. -/
theorem c8_distinct_nonces_distinct_envelopes (prim : CryptoPrim) (iv1 iv2 : List Nat)
    (p : String) (ek env : Option String)
    (h1 : iv1.length = 16) (h2 : iv2.length = 16)
    (hb1 : ∀ x ∈ iv1, x < 256) (hb2 : ∀ x ∈ iv2, x < 256) (hne : iv1 ≠ iv2) :
    encryptPassword prim iv1 p ek env ≠ encryptPassword prim iv2 p ek env ∧
      decryptPassword prim (encryptPassword prim iv1 p ek env) ek env = Except.ok p ∧
      decryptPassword prim (encryptPassword prim iv2 p ek env) ek env = Except.ok p := by
  refine ⟨?_, decrypt_encrypt_aux prim iv1 p ek env h1 hb1,
    decrypt_encrypt_aux prim iv2 p ek env h2 hb2⟩
  intro heq
  apply hne
  have hd := congrArg jsBase64Decode heq
  rw [jsBase64Decode_encryptPassword prim iv1 p ek env hb1,
    jsBase64Decode_encryptPassword prim iv2 p ek env hb2] at hd
  have htk := congrArg (List.take 16) hd
  rw [List.append_assoc, List.append_assoc, List.take_left' h1, List.take_left' h2] at htk
  exact htk

/-- Witness for C8 at two concrete distinct IVs. -/
theorem c8_witness :
    iv0 ≠ List.map (· + 100) (List.range 16) ∧
      encryptPassword testPrim iv0 "hunter2" (some "test-key") none ≠
        encryptPassword testPrim (List.map (· + 100) (List.range 16)) "hunter2"
          (some "test-key") none :=
  ⟨by decide,
    (c8_distinct_nonces_distinct_envelopes testPrim iv0 (List.map (· + 100) (List.range 16))
      "hunter2" (some "test-key") none (by decide) (by decide) (by decide) (by decide)
      (by decide)).1⟩

/-- C9, counterexample: the operations are *not* pure functions of their
explicit inputs alone.  Two calls to `encryptPassword` with identical
explicit arguments (plaintext `"hunter2"`, no explicit key) and the
identical random draw `iv0`, but a different value of the
`PLAYWRIGHT_ENCRYPTION_KEY` process environment variable, produce
different results — the environment variable is process state the claim
says cannot influence the outcome. -/
theorem c9_counterexample :
    encryptPassword testPrim iv0 "hunter2" none (some "env-key-a") ≠
      encryptPassword testPrim iv0 "hunter2" none (some "env-key-b") := by
  decide

/-- C9, amended: every operation is a deterministic function of its
explicit inputs, the one random nonce draw, and the key resolved from the
explicit parameter, the `PLAYWRIGHT_ENCRYPTION_KEY` environment variable
and the default; no other state influences the result (the environment
enters only through `resolvedKey`), and no shared mutable state exists
between calls. -/
theorem c9_state_enters_only_via_resolvedKey (prim : CryptoPrim) (iv : List Nat)
    (p s : String) (ek env1 env2 : Option String)
    (h : resolvedKey ek env1 = resolvedKey ek env2) :
    encryptPassword prim iv p ek env1 = encryptPassword prim iv p ek env2 ∧
      decryptPassword prim s ek env1 = decryptPassword prim s ek env2 := by
  constructor
  · unfold encryptPassword
    rw [h]
  · unfold decryptPassword
    rw [h]

/-- Witness for the amended C9: with an explicit key present, two different
environment values resolve to the same key and give identical results. -/
theorem c9_witness :
    resolvedKey (some "test-key") (some "env-a") = resolvedKey (some "test-key") (some "env-b") ∧
      encryptPassword testPrim iv0 "hunter2" (some "test-key") (some "env-a") =
        encryptPassword testPrim iv0 "hunter2" (some "test-key") (some "env-b") :=
  ⟨by decide,
    (c9_state_enters_only_via_resolvedKey testPrim iv0 "hunter2" "s" (some "test-key")
      (some "env-a") (some "env-b") (by decide)).1⟩
